import Mathlib

/-!
Verification of the LLM wire-protocol adapter layer of adk-utils-go.

The development shallowly embeds the two vendor adapters (the
Chat-Completions-style one in `Openai`, translated from the superset copy of
the OpenAI adapter file, and the Messages-style one in `Anthropic`, translated
from genai/anthropic/anthropic.go) and proves the specification's claims about
them.  Pure Go functions become Lean functions; the stateful tool-call ID
table becomes explicit state passing; Go's `(value, error)` returns become
`Except`.  External library behaviour that the repository merely calls
(crypto/sha256, encoding/json, the vendor SDK stream accumulators) is modelled
from the specification's words; each such definition says so in its comment.
-/

namespace Adk

/-- A JSON-like value, the model of Go's `map[string]any` / `any` trees that
the adapters exchange with encoding/json.  Numbers are kept as their lexemes:
no adapter code inspects a numeric value. -/
inductive JVal where
  | jnull
  | jbool (b : Bool)
  | jnum (lexeme : String)
  | jstr (s : String)
  | jarr (elems : List JVal)
  | jobj (fields : List (String × JVal))

/-- Canonical finish reasons (the values of genai.FinishReason the adapters
produce). -/
inductive FinishReason where
  | stop
  | maxTokens
  | safety
  | unspecified
deriving DecidableEq

/-- Token usage counts (genai / vendor usage records). -/
structure Usage where
  promptTokens : Nat
  completionTokens : Nat
  totalTokens : Nat
deriving DecidableEq

/-- A canonical content part (genai.Part), as the closed variant the spec
mandates.  Image bytes are kept abstract as a list of byte values. -/
inductive Part where
  | text (s : String)
  | inlineData (mimeType : String) (data : List Nat)
  | functionCall (id : String) (name : String) (args : List (String × JVal))
  | functionResponse (id : String) (response : List (String × JVal))

/-- A canonical conversation turn (genai.Content). -/
structure Content where
  role : String
  parts : List Part

/-- The canonical response (model.LLMResponse). -/
structure LLMResponse where
  content : Content
  usage : Option Usage
  finishReason : FinishReason
  isPartial : Bool
  turnComplete : Bool

/-- Membership test on a list of strings (Go's `map[string]bool` set lookup). -/
def memStr (id : String) : List String → Bool
  | [] => false
  | x :: rest => if x = id then true else memStr id rest

/-- Lookup in an association list, newest entry first (Go map read after
overwriting writes). -/
def findOrig : List (String × String) → String → Option String
  | [], _ => none
  | (k, v) :: rest, key => if k = key then some v else findOrig rest key

/-- The first `n` characters of a string (Go slicing of an ASCII string). -/
def strTake (s : String) (n : Nat) : String := ⟨s.data.take n⟩

/-- Concatenation of a list of strings, in order. -/
def concatStrings : List String → String
  | [] => ""
  | s :: rest => s ++ concatStrings rest

/-- The lower-case hex digit for a value below 16. -/
def hexDigitChar (n : Nat) : Char :=
  if n < 10 then Char.ofNat (48 + n) else Char.ofNat (87 + n)

/-- Fixed-width hex rendering, least significant digit first. -/
def hexDigitsLSB : Nat → Nat → List Char
  | 0, _ => []
  | w + 1, v => hexDigitChar (v % 16) :: hexDigitsLSB w (v / 16)

/-- Fixed-width big-endian hex string of a natural number. -/
def hexOfNat (width : Nat) (v : Nat) : String :=
  ⟨(hexDigitsLSB width v).reverse⟩

/-- Modelled from the spec: stands in for Go's crypto/sha256 digest rendered
by hex.EncodeToString, which is not part of this repository.  The spec needs
only that the digest is a deterministic pure function of the input whose hex
rendering has 64 characters; this model folds the input's characters into a
256-bit accumulator and renders it as 64 lower-case hex digits. -/
def sha256Hex (s : String) : String :=
  hexOfNat 64 (s.data.foldl (fun h c => (h * 131 + c.toNat) % (2 ^ 256)) 7)

/-! ### JSON parsing

Modelled from the spec: the adapters parse tool-call argument payloads with
Go's encoding/json (`json.Unmarshal` into `map[string]any`), which is not part
of this repository.  The model below is a recursive-descent parser for the
JSON grammar; `jsonParseObject` succeeds exactly on a JSON object followed by
nothing but whitespace, mirroring Unmarshal's contract for a map target. -/

/-- True for a JSON whitespace character. -/
def isJsonWs (c : Char) : Bool :=
  c = ' ' || c = '\t' || c = '\n' || c = '\r'

/-- Drop leading JSON whitespace. -/
def skipWs : List Char → List Char
  | [] => []
  | c :: rest => if isJsonWs c then skipWs rest else c :: rest

/-- Value of a hex digit, if the character is one. -/
def hexDigitVal (c : Char) : Option Nat :=
  if '0' ≤ c ∧ c ≤ '9' then some (c.toNat - 48)
  else if 'a' ≤ c ∧ c ≤ 'f' then some (c.toNat - 87)
  else if 'A' ≤ c ∧ c ≤ 'F' then some (c.toNat - 55)
  else none

/-- The character denoted by a one-letter JSON escape. -/
def escapeChar (e : Char) : Option Char :=
  if e = '\"' then some '\"'
  else if e = '\\' then some '\\'
  else if e = '/' then some '/'
  else if e = 'b' then some (Char.ofNat 8)
  else if e = 'f' then some (Char.ofNat 12)
  else if e = 'n' then some '\n'
  else if e = 'r' then some '\r'
  else if e = 't' then some '\t'
  else none

/-- Parse the body of a JSON string literal (the opening quote already
consumed), returning its characters and the rest of the input. -/
def parseStringChars : Nat → List Char → Option (List Char × List Char)
  | 0, _ => none
  | _, [] => none
  | fuel + 1, c :: rest =>
    if c = '\"' then some ([], rest)
    else if c = '\\' then
      match rest with
      | [] => none
      | e :: rest2 =>
        if e = 'u' then
          match rest2 with
          | h1 :: h2 :: h3 :: h4 :: rest3 =>
            match hexDigitVal h1, hexDigitVal h2, hexDigitVal h3, hexDigitVal h4 with
            | some v1, some v2, some v3, some v4 =>
              match parseStringChars fuel rest3 with
              | some (s, r) =>
                some (Char.ofNat (v1 * 4096 + v2 * 256 + v3 * 16 + v4) :: s, r)
              | none => none
            | _, _, _, _ => none
          | _ => none
        else
          match escapeChar e with
          | some d =>
            match parseStringChars fuel rest2 with
            | some (s, r) => some (d :: s, r)
            | none => none
          | none => none
    else
      match parseStringChars fuel rest with
      | some (s, r) => some (c :: s, r)
      | none => none

/-- Longest prefix of decimal digits. -/
def spanDigits : List Char → List Char × List Char
  | [] => ([], [])
  | c :: rest =>
    if c.isDigit then
      let (ds, r) := spanDigits rest
      (c :: ds, r)
    else ([], c :: rest)

/-- The integer part of a JSON number: `0`, or a nonzero digit then digits. -/
def parseIntPart : List Char → Option (List Char × List Char)
  | [] => none
  | c :: rest =>
    if c = '0' then some ([c], rest)
    else if c.isDigit then
      let (ds, r) := spanDigits rest
      some (c :: ds, r)
    else none

/-- The optional fraction part of a JSON number. -/
def parseFracPart : List Char → Option (List Char × List Char)
  | '.' :: r =>
    (match spanDigits r with
     | ([], _) => none
     | (ds, rest) => some ('.' :: ds, rest))
  | cs => some ([], cs)

/-- The optional exponent part of a JSON number. -/
def parseExpPart : List Char → Option (List Char × List Char)
  | [] => some ([], [])
  | c :: r =>
    if c = 'e' ∨ c = 'E' then
      match r with
      | [] => none
      | s :: r2 =>
        if s = '+' ∨ s = '-' then
          match spanDigits r2 with
          | ([], _) => none
          | (ds, rest) => some (c :: s :: ds, rest)
        else
          match spanDigits r with
          | ([], _) => none
          | (ds, rest) => some (c :: ds, rest)
    else some ([], c :: r)

/-- The unsigned magnitude of a JSON number, as its lexeme. -/
def parseNumMag (cs : List Char) : Option (List Char × List Char) :=
  match parseIntPart cs with
  | none => none
  | some (ip, r1) =>
    match parseFracPart r1 with
    | none => none
    | some (fp, r2) =>
      match parseExpPart r2 with
      | none => none
      | some (ep, r3) => some (ip ++ fp ++ ep, r3)

/-- A JSON number, as its lexeme. -/
def jsonParseNumber (cs : List Char) : Option (JVal × List Char) :=
  match cs with
  | '-' :: r =>
    (match parseNumMag r with
     | some (m, rest) => some (JVal.jnum ⟨'-' :: m⟩, rest)
     | none => none)
  | _ =>
    match parseNumMag cs with
    | some (m, rest) => some (JVal.jnum ⟨m⟩, rest)
    | none => none

mutual

/-- Parse one JSON value; fuel bounds the recursion depth. -/
def jsonParseValue : Nat → List Char → Option (JVal × List Char)
  | 0, _ => none
  | fuel + 1, cs =>
    match skipWs cs with
    | [] => none
    | c :: rest =>
      if c = 'n' then
        match rest with
        | 'u' :: 'l' :: 'l' :: rest2 => some (JVal.jnull, rest2)
        | _ => none
      else if c = 't' then
        match rest with
        | 'r' :: 'u' :: 'e' :: rest2 => some (JVal.jbool true, rest2)
        | _ => none
      else if c = 'f' then
        match rest with
        | 'a' :: 'l' :: 's' :: 'e' :: rest2 => some (JVal.jbool false, rest2)
        | _ => none
      else if c = '\"' then
        match parseStringChars (rest.length + 1) rest with
        | some (s, rest2) => some (JVal.jstr ⟨s⟩, rest2)
        | none => none
      else if c = '-' ∨ c.isDigit then jsonParseNumber (c :: rest)
      else if c = '[' then
        match skipWs rest with
        | ']' :: rest2 => some (JVal.jarr [], rest2)
        | cs2 =>
          match jsonParseElems fuel cs2 with
          | some (vs, rest2) => some (JVal.jarr vs, rest2)
          | none => none
      else if c = '\x7b' then
        match skipWs rest with
        | '\x7d' :: rest2 => some (JVal.jobj [], rest2)
        | cs2 =>
          match jsonParseFields fuel cs2 with
          | some (fs, rest2) => some (JVal.jobj fs, rest2)
          | none => none
      else none

/-- Parse array elements up to the closing bracket. -/
def jsonParseElems : Nat → List Char → Option (List JVal × List Char)
  | 0, _ => none
  | fuel + 1, cs =>
    match jsonParseValue fuel cs with
    | none => none
    | some (v, rest) =>
      match skipWs rest with
      | ',' :: rest2 =>
        (match jsonParseElems fuel rest2 with
         | some (vs, rest3) => some (v :: vs, rest3)
         | none => none)
      | ']' :: rest2 => some ([v], rest2)
      | _ => none

/-- Parse object members up to the closing brace. -/
def jsonParseFields : Nat → List Char → Option (List (String × JVal) × List Char)
  | 0, _ => none
  | fuel + 1, cs =>
    match skipWs cs with
    | '\"' :: rest =>
      (match parseStringChars (rest.length + 1) rest with
       | none => none
       | some (k, rest2) =>
         match skipWs rest2 with
         | ':' :: rest3 =>
           (match jsonParseValue fuel rest3 with
            | none => none
            | some (v, rest4) =>
              match skipWs rest4 with
              | ',' :: rest5 =>
                (match jsonParseFields fuel rest5 with
                 | some (fs, rest6) => some ((⟨k⟩, v) :: fs, rest6)
                 | none => none)
              | '\x7d' :: rest5 => some ([(⟨k⟩, v)], rest5)
              | _ => none)
         | _ => none)
    | _ => none

end

/-- Parse a complete JSON document: one value, then only whitespace. -/
def jsonParseTop (s : String) : Option JVal :=
  match jsonParseValue (s.length + 2) s.data with
  | some (v, rest) => if skipWs rest = [] then some v else none
  | none => none

/-- Decode a complete JSON document as an object, the way `json.Unmarshal`
into a `map[string]any` target accepts exactly a top-level object. -/
def jsonParseObject (s : String) : Option (List (String × JVal)) :=
  match jsonParseTop s with
  | some (JVal.jobj fields) => some fields
  | _ => none

/-!
### The Chat-Completions-style (OpenAI) adapter

Translated from the superset copy of the OpenAI adapter file (package openai).
-/

namespace Openai

/-- OpenAI enforces a 40-character limit on tool_call_id fields. -/
def maxToolCallIDLength : Nat := 40

/-- ErrNoChoicesInResponse. -/
def errNoChoicesInResponse : String := "no choices in OpenAI response"

/-- The instance-scoped `toolCallIDMap` (shortened hash to original ID); a Go
map modelled as an association list where an insert shadows older entries. -/
abbrev Table := List (String × String)

/-- normalizeToolCallID: shortens IDs exceeding OpenAI's 40-char limit using a
hash; the mapping is stored to allow reverse lookup.  The mutation of the
instance map is explicit state passing. -/
def normalizeToolCallID (tbl : Table) (id : String) : Table × String :=
  if id.length ≤ maxToolCallIDLength then (tbl, id)
  else
    let shortID := "tc_" ++ strTake (sha256Hex id) (maxToolCallIDLength - 3)
    ((shortID, id) :: tbl, shortID)

/-- denormalizeToolCallID: restores the original ID from a shortened one;
echoes the input when no entry exists. -/
def denormalizeToolCallID (tbl : Table) (shortID : String) : String :=
  match findOrig tbl shortID with
  | some original => original
  | none => shortID

/-- convertFinishReason: maps OpenAI finish reasons to genai form. -/
def convertFinishReason (reason : String) : FinishReason :=
  if reason = "stop" ∨ reason = "tool_calls" ∨ reason = "function_call" then
    FinishReason.stop
  else if reason = "length" then FinishReason.maxTokens
  else if reason = "content_filter" then FinishReason.safety
  else FinishReason.unspecified

/-- convertUsageMetadata: usage counts pass through only when the vendor
reports a nonzero total. -/
def convertUsageMetadata (usage : Usage) : Option Usage :=
  if usage.totalTokens = 0 then none else some usage

/-- parseJSONArgs: parses a JSON string into a map, returning an empty map on
error. -/
def parseJSONArgs (argsJSON : String) : List (String × JVal) :=
  if argsJSON = "" then []
  else
    match jsonParseObject argsJSON with
    | some args => args
    | none => []

/-- One tool call of a completed vendor message. -/
structure ToolCallItem where
  id : String
  name : String
  arguments : String

/-- The message of a completed vendor choice. -/
structure ChatMessage where
  content : String
  toolCalls : List ToolCallItem

/-- One choice of a completed vendor response. -/
structure Choice where
  message : ChatMessage
  finishReason : String

/-- A completed vendor response (openai.ChatCompletion). -/
structure ChatCompletion where
  choices : List Choice
  usage : Usage

/-- convertResponse: transforms an OpenAI response into an LLMResponse. -/
def convertResponse (resp : ChatCompletion) : Except String LLMResponse :=
  match resp.choices with
  | [] => Except.error errNoChoicesInResponse
  | choice :: _ =>
    let textParts :=
      if choice.message.content ≠ "" then [Part.text choice.message.content] else []
    let callParts := choice.message.toolCalls.map fun tc =>
      Part.functionCall tc.id tc.name (parseJSONArgs tc.arguments)
    Except.ok
      { content := { role := "model", parts := textParts ++ callParts }
        usage := convertUsageMetadata resp.usage
        finishReason := convertFinishReason choice.finishReason
        isPartial := false
        turnComplete := true }

/-- schemaTypeToString: converts a genai.Type tag (its wire string) to a JSON
schema type string; a tag off the table defaults to "string". -/
def schemaTypeToString (t : String) : String :=
  if t = "STRING" then "string"
  else if t = "NUMBER" then "number"
  else if t = "INTEGER" then "integer"
  else if t = "BOOLEAN" then "boolean"
  else if t = "ARRAY" then "array"
  else if t = "OBJECT" then "object"
  else "string"

/-- The generic schema tree (genai.Schema): type tag, description, required
names, enum values, nested properties, array item schema. -/
inductive Schema where
  | mk (type : String) (description : String) (required : List String)
      (enumVals : List String) (properties : List (String × Schema))
      (items : Option Schema)

mutual

/-- convertSchema on a non-nil schema: recursively converts a genai.Schema to
OpenAI JSON schema format.  Go builds a `map[string]any`; the model keeps the
source's insertion order.  The Go function's error return is vacuous (no
branch produces an error), so the model is total. -/
def convertSchemaSome : Schema → JVal
  | Schema.mk t d req en props items =>
    JVal.jobj
      ((if t ≠ "TYPE_UNSPECIFIED" then [("type", JVal.jstr (schemaTypeToString t))] else [])
       ++ (if d ≠ "" then [("description", JVal.jstr d)] else [])
       ++ (if req ≠ [] then [("required", JVal.jarr (req.map JVal.jstr))] else [])
       ++ (if en ≠ [] then [("enum", JVal.jarr (en.map JVal.jstr))] else [])
       ++ (if props.isEmpty then [] else [("properties", JVal.jobj (convertProperties props))])
       ++ (match items with
           | some i => [("items", convertSchemaSome i)]
           | none => []))

/-- The recursion of convertSchema over nested object properties. -/
def convertProperties : List (String × Schema) → List (String × JVal)
  | [] => []
  | (n, s) :: rest => (n, convertSchemaSome s) :: convertProperties rest

end

/-- convertSchema: a nil schema converts to an empty object schema. -/
def convertSchema : Option Schema → JVal
  | none => JVal.jobj [("type", JVal.jstr "object"), ("properties", JVal.jobj [])]
  | some s => convertSchemaSome s

/-- One choice of a streamed chunk: its incremental text delta and finish
reason. -/
structure DeltaChoice where
  deltaContent : String
  finishReason : String

/-- One streamed vendor chunk.  Modelled from the spec: tool-call argument
fragments are part of the SDK chunk type but are elided here; the streaming
claims concern text deltas, ordering, usage and finish reasons. -/
structure ChatChunk where
  choices : List DeltaChoice
  usage : Usage

/-- The text delta of a chunk's first choice (empty when the chunk has no
choices). -/
def chunkDelta (c : ChatChunk) : String :=
  match c.choices with
  | [] => ""
  | ch :: _ => ch.deltaContent

/-- Modelled from the spec: the vendor SDK's ChatCompletionAccumulator, which
is not part of this repository.  Per the spec, chunks accumulate text deltas,
usage counters and the finish reason into aggregate state. -/
structure StreamAcc where
  hasChoice : Bool
  content : String
  finishReason : String
  usage : Usage

/-- The zero accumulator (openai.ChatCompletionAccumulator{}). -/
def emptyAcc : StreamAcc :=
  { hasChoice := false, content := "", finishReason := "", usage := ⟨0, 0, 0⟩ }

/-- Modelled from the spec: acc.AddChunk — append the first choice's text
delta, keep the latest nonempty finish reason and usage record. -/
def addChunk (acc : StreamAcc) (c : ChatChunk) : StreamAcc :=
  { hasChoice := acc.hasChoice || !c.choices.isEmpty
    content := acc.content ++ chunkDelta c
    finishReason :=
      match c.choices with
      | ch :: _ => if ch.finishReason ≠ "" then ch.finishReason else acc.finishReason
      | [] => acc.finishReason
    usage := if c.usage.totalTokens ≠ 0 then c.usage else acc.usage }

/-- buildStreamFinalResponse: creates the final LLMResponse from accumulated
stream data. -/
def buildStreamFinalResponse (acc : StreamAcc) : LLMResponse :=
  { content :=
      { role := "model"
        parts := if acc.hasChoice ∧ acc.content ≠ "" then [Part.text acc.content] else [] }
    usage := convertUsageMetadata acc.usage
    finishReason :=
      if acc.hasChoice then convertFinishReason acc.finishReason
      else FinishReason.unspecified
    isPartial := false
    turnComplete := true }

/-- One element of the emitted streaming sequence: a canonical response or a
surfaced error (the `(*LLMResponse, error)` pairs of the Go iterator). -/
inductive StreamItem where
  | resp (r : LLMResponse)
  | failed (e : String)

/-- generateStream, as the pure function from the received chunks and the
terminal transport status to the emitted sequence: each chunk is accumulated,
a nonempty first-choice delta is emitted at once as a partial response, and
the terminal status yields either the error or the final aggregated
response.  (The Go caller can stop the iteration early; the model takes the
run to completion.) -/
def generateStream (acc : StreamAcc) :
    List ChatChunk → Option String → List StreamItem
  | [], some e => [StreamItem.failed e]
  | [], none => [StreamItem.resp (buildStreamFinalResponse acc)]
  | c :: rest, terr =>
    let acc2 := addChunk acc c
    if chunkDelta c ≠ "" then
      StreamItem.resp
        { content := { role := "model", parts := [Part.text (chunkDelta c)] }
          usage := none
          finishReason := FinishReason.unspecified
          isPartial := true
          turnComplete := false }
        :: generateStream acc2 rest terr
    else generateStream acc2 rest terr

end Openai

/-!
### The Messages-style (Anthropic) adapter

Translated from genai/anthropic/anthropic.go.
-/

namespace Anthropic

/-- ErrNoContentInResponse (declared in the source; see claim C5). -/
def errNoContentInResponse : String := "no content in Anthropic response"

/-- Wire message roles (anthropic.MessageParamRole). -/
inductive Role where
  | user
  | assistant
deriving DecidableEq

/-- A wire content block (anthropic.ContentBlockParamUnion).  Image data is
carried as raw bytes; the wire-level base64 rendering is an encoding detail
the claims never touch.  A tool_use input and a tool_result content are
carried as JSON values (the source holds json.RawMessage / a JSON string). -/
inductive ContentBlock where
  | text (s : String)
  | image (mediaType : String) (data : List Nat)
  | toolUse (id : String) (name : String) (input : JVal)
  | toolResult (toolUseID : String) (content : JVal)

/-- A wire message (anthropic.MessageParam). -/
structure MessageParam where
  role : Role
  content : List ContentBlock

/-- True for characters allowed by anthropicToolIDPattern. -/
def isAnthropicIDChar (c : Char) : Bool :=
  ('a' ≤ c ∧ c ≤ 'z') ∨ ('A' ≤ c ∧ c ≤ 'Z') ∨ ('0' ≤ c ∧ c ≤ '9') ∨ c = '_' ∨ c = '-'

/-- anthropicToolIDPattern.MatchString: the regex `^[a-zA-Z0-9_-]+$`. -/
def matchesToolIDPattern (id : String) : Bool :=
  !id.data.isEmpty && id.data.all isAnthropicIDChar

/-- sanitizeToolID: replaces invalid tool IDs (chars outside `[a-zA-Z0-9_-]`)
with a SHA256-based valid ID. -/
def sanitizeToolID (id : String) : String :=
  if matchesToolIDPattern id then id
  else "toolu_" ++ strTake (sha256Hex id) 32

/-- convertRoleToAnthropic: maps "user"/"model" to the wire role enum. -/
def convertRoleToAnthropic (role : String) : Role :=
  if role = "user" then Role.user
  else if role = "model" then Role.assistant
  else Role.user

/-- convertStopReason: maps Anthropic's stop reasons to genai.FinishReason.
anthropic.StopReason is a string type; its constants are the wire strings. -/
def convertStopReason (reason : String) : FinishReason :=
  if reason = "end_turn" then FinishReason.stop
  else if reason = "max_tokens" then FinishReason.maxTokens
  else if reason = "stop_sequence" then FinishReason.stop
  else if reason = "tool_use" then FinishReason.stop
  else FinishReason.unspecified

/-- The dynamic (`any`) tool input the SDK hands over: Go nil, an already
decoded map, or a raw JSON message. -/
inductive GoAny where
  | goNil
  | goMap (m : List (String × JVal))
  | goRaw (s : String)

/-- convertToolInput: converts tool input to a `map[string]any` for
genai.FunctionCall.Args; nil, non-object and undecodable inputs all yield an
empty map. -/
def convertToolInput : GoAny → List (String × JVal)
  | GoAny.goNil => []
  | GoAny.goMap m => m
  | GoAny.goRaw s =>
    match jsonParseObject s with
    | some result => result
    | none => []

/-- A content block of a completed vendor response (anthropic.Message).
Blocks other than text and tool_use are ignored by the converter. -/
inductive RespBlock where
  | textBlock (s : String)
  | toolUseBlock (id : String) (name : String) (input : GoAny)
  | otherBlock

/-- Usage counts of a completed vendor response. -/
structure AnthUsage where
  inputTokens : Nat
  outputTokens : Nat

/-- A completed vendor response (anthropic.Message). -/
structure Message where
  content : List RespBlock
  usage : AnthUsage
  stopReason : String

/-- The canonical parts a response's content blocks convert to. -/
def convertRespBlocks : List RespBlock → List Part
  | [] => []
  | RespBlock.textBlock s :: rest => Part.text s :: convertRespBlocks rest
  | RespBlock.toolUseBlock id name input :: rest =>
    Part.functionCall id name (convertToolInput input) :: convertRespBlocks rest
  | RespBlock.otherBlock :: rest => convertRespBlocks rest

/-- The usage metadata a response converts to: present only when the vendor
reports nonzero input or output tokens. -/
def convertRespUsage (u : AnthUsage) : Option Usage :=
  if 0 < u.inputTokens ∨ 0 < u.outputTokens then
    some ⟨u.inputTokens, u.outputTokens, u.inputTokens + u.outputTokens⟩
  else none

/-- convertResponse: transforms an Anthropic response (text and tool_use
blocks, usage, stop reason) into the generic LLMResponse.  The Go signature
returns `(*model.LLMResponse, error)` but no branch produces an error. -/
def convertResponse (resp : Message) : Except String LLMResponse :=
  Except.ok
    { content := { role := "model", parts := convertRespBlocks resp.content }
      usage := convertRespUsage resp.usage
      finishReason := convertStopReason resp.stopReason
      isPartial := false
      turnComplete := true }

/-- extractToolUseIDs: all tool_use IDs of an assistant message. -/
def extractBlockToolUseIDs : List ContentBlock → List String
  | [] => []
  | ContentBlock.toolUse id _ _ :: rest => id :: extractBlockToolUseIDs rest
  | _ :: rest => extractBlockToolUseIDs rest

/-- extractToolUseIDs on a message. -/
def extractToolUseIDs (msg : MessageParam) : List String :=
  extractBlockToolUseIDs msg.content

/-- extractToolResultIDs: all tool_result IDs of a user message. -/
def extractBlockToolResultIDs : List ContentBlock → List String
  | [] => []
  | ContentBlock.toolResult id _ :: rest => id :: extractBlockToolResultIDs rest
  | _ :: rest => extractBlockToolResultIDs rest

/-- extractToolResultIDs on a message. -/
def extractToolResultIDs (msg : MessageParam) : List String :=
  extractBlockToolResultIDs msg.content

/-- The block filtering of filterToolUse: tool_use blocks survive only when
their ID is allowed (`none` models Go's nil set: drop every tool_use). -/
def filterBlocks : List ContentBlock → Option (List String) → List ContentBlock
  | [], _ => []
  | b :: rest, allowed =>
    match b with
    | ContentBlock.toolUse id _ _ =>
      (match allowed with
       | some ids =>
         if memStr id ids then b :: filterBlocks rest allowed
         else filterBlocks rest allowed
       | none => filterBlocks rest allowed)
    | _ => b :: filterBlocks rest allowed

/-- filterToolUse: keeps tool_use blocks whose IDs are in allowedIDs; with a
nil set, removes all tool_use. -/
def filterToolUse (msg : MessageParam) (allowedIDs : Option (List String)) :
    MessageParam :=
  { role := msg.role, content := filterBlocks msg.content allowedIDs }

/-- hasContent: the message has at least one content block. -/
def hasContent (msg : MessageParam) : Bool :=
  !msg.content.isEmpty

/-- repairMessageHistory: one left-to-right pass removing orphaned tool_use
blocks (those without a matching tool_result in the next message).  The Go
loop inspects `messages[i+1]`; the model inspects the head of the rest. -/
def repairMessageHistory : List MessageParam → List MessageParam
  | [] => []
  | msg :: rest =>
    if msg.role = Role.assistant ∧ extractToolUseIDs msg ≠ [] then
      let allowed : Option (List String) :=
        match rest with
        | next :: _ =>
          if next.role = Role.user then some (extractToolResultIDs next) else none
        | [] => none
      let filteredMsg := filterToolUse msg allowed
      (if hasContent filteredMsg then [filteredMsg] else [])
        ++ repairMessageHistory rest
    else msg :: repairMessageHistory rest

/-- extractTextFromContent: all text parts joined with newlines. -/
def extractTextFromContent (content : Option Content) : String :=
  match content with
  | none => ""
  | some c =>
    String.intercalate "\n"
      (c.parts.filterMap fun p =>
        match p with
        | Part.text s => if s ≠ "" then some s else none
        | _ => none)

/-- The image MIME allow-list test of convertContentToMessage. -/
def isAllowedImageMime (mediaType : String) : Bool :=
  mediaType = "image/jpg" || mediaType = "image/jpeg" || mediaType = "image/png"
    || mediaType = "image/gif" || mediaType = "image/webp"

/-- convertToolInputToRaw: the JSON value sent as a tool_use input (Go
produces a json.RawMessage; nil maps degrade to `\x7b\x7d`). -/
def convertToolInputToRaw (args : List (String × JVal)) : JVal :=
  JVal.jobj args

/-- The wire blocks one canonical part contributes, in source order. -/
def partToBlocks : Part → List ContentBlock
  | Part.text s => if s ≠ "" then [ContentBlock.text s] else []
  | Part.inlineData mediaType data =>
    if isAllowedImageMime mediaType then [ContentBlock.image mediaType data] else []
  | Part.functionCall id name args =>
    [ContentBlock.toolUse (sanitizeToolID id) name (convertToolInputToRaw args)]
  | Part.functionResponse id response =>
    [ContentBlock.toolResult (sanitizeToolID id) (JVal.jobj response)]

/-- convertContentToMessage: transforms a genai.Content into an Anthropic
message; a content whose parts contribute no block contributes no message.
The Go function's error return fires only on a JSON marshalling failure,
which the model's total serialization cannot produce. -/
def convertContentToMessage (content : Content) : Option MessageParam :=
  let blocks := content.parts.flatMap partToBlocks
  if blocks.isEmpty then none
  else some { role := convertRoleToAnthropic content.role, content := blocks }

/-- The generation options the Anthropic request builder reads
(genai.GenerateContentConfig; fields no claim touches are elided). -/
structure GenConfig where
  maxOutputTokens : Int
  systemInstruction : Option Content
  stopSequences : List String

/-- The canonical request (model.LLMRequest). -/
structure LLMRequest where
  contents : List Content
  config : Option GenConfig

/-- The vendor request parameters (anthropic.MessageNewParams; fields no
claim touches are elided). -/
structure MessageNewParams where
  model : String
  maxTokens : Int
  system : Option String
  messages : List MessageParam
  stopSequences : List String

/-- buildMessageParams: converts an LLMRequest into Anthropic's API format —
the 4096 default for max tokens, the system prompt, per-content messages,
and the history repair pass. -/
def buildMessageParams (modelName : String) (req : LLMRequest) :
    MessageNewParams :=
  let maxTokens : Int :=
    match req.config with
    | some cfg => if 0 < cfg.maxOutputTokens then cfg.maxOutputTokens else 4096
    | none => 4096
  let system : Option String :=
    match req.config with
    | some cfg =>
      match cfg.systemInstruction with
      | some si =>
        let systemText := extractTextFromContent (some si)
        if systemText ≠ "" then some systemText else none
      | none => none
    | none => none
  let messages := repairMessageHistory (req.contents.filterMap convertContentToMessage)
  let stopSequences :=
    match req.config with
    | some cfg => if !cfg.stopSequences.isEmpty then cfg.stopSequences else []
    | none => []
  { model := modelName
    maxTokens := maxTokens
    system := system
    messages := messages
    stopSequences := stopSequences }

/-- A server-sent stream event, as the streaming loop distinguishes them: a
content-block text delta, the message-delta event carrying the stop reason
and output-token count, the message-start event carrying the input-token
count, or anything else. -/
inductive StreamEvent where
  | textDelta (s : String)
  | messageDelta (stopReason : String) (outputTokens : Nat)
  | messageStart (inputTokens : Nat)
  | otherEvent

/-- Modelled from the spec: the SDK's message.Accumulate state — the text
accumulated so far (absent until a first text delta arrives), stop reason and
usage counters. -/
structure MsgAcc where
  textSoFar : Option String
  stopReason : String
  inputTokens : Nat
  outputTokens : Nat

/-- The zero accumulated message (anthropic.Message{}). -/
def emptyMsgAcc : MsgAcc :=
  { textSoFar := none, stopReason := "", inputTokens := 0, outputTokens := 0 }

/-- Modelled from the spec: one message.Accumulate step. -/
def accumulate (acc : MsgAcc) : StreamEvent → MsgAcc
  | StreamEvent.textDelta s =>
    { acc with textSoFar := some ((acc.textSoFar.getD "") ++ s) }
  | StreamEvent.messageDelta stopReason outputTokens =>
    { acc with stopReason := stopReason, outputTokens := outputTokens }
  | StreamEvent.messageStart inputTokens =>
    { acc with inputTokens := inputTokens }
  | StreamEvent.otherEvent => acc

/-- The completed vendor response an accumulation run denotes. -/
def accToMessage (acc : MsgAcc) : Message :=
  { content :=
      match acc.textSoFar with
      | some t => [RespBlock.textBlock t]
      | none => []
    usage := ⟨acc.inputTokens, acc.outputTokens⟩
    stopReason := acc.stopReason }

/-- One element of the emitted streaming sequence. -/
inductive StreamItem where
  | resp (r : LLMResponse)
  | failed (e : String)

/-- generateStream, as the pure function from the received events and the
terminal transport status to the emitted sequence: every event is
accumulated, a nonempty text delta is emitted at once as a partial response,
and the terminal status yields either the error or the final aggregated
response (converted by convertResponse, then marked non-partial and
turn-complete). -/
def generateStream (acc : MsgAcc) :
    List StreamEvent → Option String → List StreamItem
  | [], some e => [StreamItem.failed e]
  | [], none =>
    match convertResponse (accToMessage acc) with
    | Except.ok llmResp =>
      [StreamItem.resp { llmResp with isPartial := false, turnComplete := true }]
    | Except.error e => [StreamItem.failed e]
  | ev :: rest, terr =>
    let acc2 := accumulate acc ev
    match ev with
    | StreamEvent.textDelta s =>
      if s ≠ "" then
        StreamItem.resp
          { content := { role := "model", parts := [Part.text s] }
            usage := none
            finishReason := FinishReason.unspecified
            isPartial := true
            turnComplete := false }
          :: generateStream acc2 rest terr
      else generateStream acc2 rest terr
    | _ => generateStream acc2 rest terr

/-- The text delta an event carries (empty for non-text-delta events). -/
def eventDelta : StreamEvent → String
  | StreamEvent.textDelta s => s
  | _ => ""

/-- The final aggregated response a completed (error-free) event run
denotes: the accumulated message pushed through convertResponse and marked
non-partial, turn-complete — what the success tail of generateStream
emits. -/
def finalResponse (events : List StreamEvent) : LLMResponse :=
  let msg := accToMessage (events.foldl accumulate emptyMsgAcc)
  { content := { role := "model", parts := convertRespBlocks msg.content }
    usage := convertRespUsage msg.usage
    finishReason := convertStopReason msg.stopReason
    isPartial := false
    turnComplete := true }

/-- The claim's protocol invariant, literally: every tool_use ID of every
message has a matching tool_result in the immediately following message. -/
def toolUsePaired : List MessageParam → Bool
  | [] => true
  | m :: rest =>
    (extractToolUseIDs m).all (fun id =>
      match rest with
      | next :: _ => memStr id (extractToolResultIDs next)
      | [] => false)
    && toolUsePaired rest

/-- The invariant the repair pass actually establishes: every tool_use ID of
every assistant message has a matching tool_result in the immediately
following message. -/
def assistantToolUsePaired : List MessageParam → Bool
  | [] => true
  | m :: rest =>
    (if m.role = Role.assistant then
      (extractToolUseIDs m).all (fun id =>
        match rest with
        | next :: _ => memStr id (extractToolResultIDs next)
        | [] => false)
     else true)
    && assistantToolUsePaired rest

end Anthropic

/-- The concatenation of the Text parts of a part list, in order. -/
def textOfParts : List Part → String
  | [] => ""
  | Part.text s :: rest => s ++ textOfParts rest
  | _ :: rest => textOfParts rest

/-!
### Claim theorems
-/

/-- C6: the schema converter maps a nil generic schema to the empty object
schema `\x7btype: object, properties: \x7b\x7d\x7d`, and the type-tag-to-vendor-string
mapping sends every tag off its six-entry table — the unset tag and unknown
tags alike — to "string". -/
theorem c6_schema_converter_defaults :
    Openai.convertSchema none =
      JVal.jobj [("type", JVal.jstr "object"), ("properties", JVal.jobj [])]
    ∧ ∀ t : String,
        t ∉ ["STRING", "NUMBER", "INTEGER", "BOOLEAN", "ARRAY", "OBJECT"] →
        Openai.schemaTypeToString t = "string" := by
  refine ⟨rfl, ?_⟩
  intro t ht
  simp only [List.mem_cons, List.not_mem_nil, or_false, not_or] at ht
  obtain ⟨h1, h2, h3, h4, h5, h6⟩ := ht
  simp [Openai.schemaTypeToString, h1, h2, h3, h4, h5, h6]

/-- Witness for C6 at the concrete unknown tag "NULL". -/
theorem c6_schema_converter_defaults_witness :
    "NULL" ∉ ["STRING", "NUMBER", "INTEGER", "BOOLEAN", "ARRAY", "OBJECT"]
    ∧ Openai.schemaTypeToString "NULL" = "string" :=
  ⟨by decide, c6_schema_converter_defaults.2 "NULL" (by decide)⟩

/-- C7: the two adapters together realize the spec's single finish-reason
table, each on its own vendor's vocabulary: the OpenAI adapter sends stop,
tool_calls and function_call to stop, length to maxTokens and content_filter
to safety; the Anthropic adapter sends end_turn, stop_sequence and tool_use
to stop and max_tokens to maxTokens; every reason outside an adapter's own
rows — another vendor's strings included — maps to unspecified. -/
theorem c7_finish_reason_table :
    (Openai.convertFinishReason "stop" = FinishReason.stop
      ∧ Openai.convertFinishReason "tool_calls" = FinishReason.stop
      ∧ Openai.convertFinishReason "function_call" = FinishReason.stop
      ∧ Openai.convertFinishReason "length" = FinishReason.maxTokens
      ∧ Openai.convertFinishReason "content_filter" = FinishReason.safety)
    ∧ (Anthropic.convertStopReason "end_turn" = FinishReason.stop
      ∧ Anthropic.convertStopReason "stop_sequence" = FinishReason.stop
      ∧ Anthropic.convertStopReason "tool_use" = FinishReason.stop
      ∧ Anthropic.convertStopReason "max_tokens" = FinishReason.maxTokens)
    ∧ (∀ r : String,
        r ∉ ["stop", "tool_calls", "function_call", "length", "content_filter"] →
        Openai.convertFinishReason r = FinishReason.unspecified)
    ∧ (∀ r : String,
        r ∉ ["end_turn", "max_tokens", "stop_sequence", "tool_use"] →
        Anthropic.convertStopReason r = FinishReason.unspecified) := by
  refine ⟨by decide, by decide, ?_, ?_⟩
  · intro r hr
    simp only [List.mem_cons, List.not_mem_nil, or_false, not_or] at hr
    obtain ⟨h1, h2, h3, h4, h5⟩ := hr
    simp [Openai.convertFinishReason, h1, h2, h3, h4, h5]
  · intro r hr
    simp only [List.mem_cons, List.not_mem_nil, or_false, not_or] at hr
    obtain ⟨h1, h2, h3, h4⟩ := hr
    simp [Anthropic.convertStopReason, h1, h2, h3, h4]

/-- Witness for C7 at the concrete unknown reason "weird_reason". -/
theorem c7_finish_reason_table_witness :
    Openai.convertFinishReason "weird_reason" = FinishReason.unspecified
    ∧ Anthropic.convertStopReason "weird_reason" = FinishReason.unspecified :=
  ⟨c7_finish_reason_table.2.2.1 "weird_reason" (by decide),
   c7_finish_reason_table.2.2.2 "weird_reason" (by decide)⟩

/-- C10: the Anthropic request builder always sets max tokens — 4096 when the
generation options are absent or carry a non-positive maxOutputTokens, the
caller's value unchanged otherwise. -/
theorem c10_default_max_tokens (modelName : String) (req : Anthropic.LLMRequest) :
    ((req.config = none
        ∨ ∃ cfg, req.config = some cfg ∧ cfg.maxOutputTokens ≤ 0) →
      (Anthropic.buildMessageParams modelName req).maxTokens = 4096)
    ∧ (∀ cfg, req.config = some cfg → 0 < cfg.maxOutputTokens →
      (Anthropic.buildMessageParams modelName req).maxTokens = cfg.maxOutputTokens) := by
  constructor
  · rintro (h | ⟨cfg, hc, hle⟩)
    · simp [Anthropic.buildMessageParams, h]
    · simp [Anthropic.buildMessageParams, hc, not_lt.mpr hle]
  · intro cfg hc hpos
    simp [Anthropic.buildMessageParams, hc, hpos]

/-- Witness for C10: an absent config and a config with maxOutputTokens 100.
-/
theorem c10_default_max_tokens_witness :
    (Anthropic.buildMessageParams "m" ⟨[], none⟩).maxTokens = 4096
    ∧ (Anthropic.buildMessageParams "m" ⟨[], some ⟨100, none, []⟩⟩).maxTokens = 100 :=
  ⟨(c10_default_max_tokens "m" ⟨[], none⟩).1 (Or.inl rfl),
   (c10_default_max_tokens "m" ⟨[], some ⟨100, none, []⟩⟩).2 ⟨100, none, []⟩ rfl
     (by norm_num)⟩

/-- C5, counterexample: the claim asserts that an empty content block list is
a hard NoContentInResponse error for the Messages vendor, but the Anthropic
converter succeeds on a response with no content blocks, returning a
canonical response with empty parts — ErrNoContentInResponse is declared in
the source yet never returned. -/
theorem c5_claim_counterexample :
    Anthropic.convertResponse ⟨[], ⟨0, 0⟩, "end_turn"⟩ =
      Except.ok ⟨⟨"model", []⟩, none, FinishReason.stop, false, true⟩ := rfl

/-- C5, amended: an empty choice list is a hard NoChoicesInResponse error for
the Chat-Completions vendor; the Messages vendor's converter never fails, and
on an empty content block list it produces a canonical response with empty
parts. -/
theorem c5_empty_response_policy :
    (∀ resp : Openai.ChatCompletion, resp.choices = [] →
      Openai.convertResponse resp = Except.error Openai.errNoChoicesInResponse)
    ∧ (∀ msg : Anthropic.Message, msg.content = [] →
      Anthropic.convertResponse msg =
        Except.ok ⟨⟨"model", []⟩, Anthropic.convertRespUsage msg.usage,
          Anthropic.convertStopReason msg.stopReason, false, true⟩) := by
  constructor
  · intro resp h
    rcases resp with ⟨choices, usage⟩
    cases h
    rfl
  · intro msg h
    rcases msg with ⟨content, usage, sr⟩
    cases h
    rfl

/-- Witness for C5 at concrete empty vendor responses. -/
theorem c5_empty_response_policy_witness :
    Openai.convertResponse ⟨[], ⟨1, 2, 3⟩⟩ =
      Except.error Openai.errNoChoicesInResponse
    ∧ Anthropic.convertResponse ⟨[], ⟨3, 4⟩, "max_tokens"⟩ =
      Except.ok ⟨⟨"model", []⟩, Anthropic.convertRespUsage ⟨3, 4⟩,
        Anthropic.convertStopReason "max_tokens", false, true⟩ :=
  ⟨c5_empty_response_policy.1 ⟨[], ⟨1, 2, 3⟩⟩ rfl,
   c5_empty_response_policy.2 ⟨[], ⟨3, 4⟩, "max_tokens"⟩ rfl⟩

/-- C8: an argument payload that is not a JSON object yields an empty
argument map and never an error, on both adapters — at the parsing helpers
and through full response conversion of a tool-call block carrying the
malformed payload. -/
theorem c8_malformed_args_lenient :
    (∀ s, jsonParseObject s = none → Openai.parseJSONArgs s = [])
    ∧ (∀ s, jsonParseObject s = none →
        Anthropic.convertToolInput (Anthropic.GoAny.goRaw s) = [])
    ∧ (∀ (id name s fr : String) (u : Usage), jsonParseObject s = none →
        Openai.convertResponse ⟨[⟨⟨"", [⟨id, name, s⟩]⟩, fr⟩], u⟩ =
          Except.ok ⟨⟨"model", [Part.functionCall id name []]⟩,
            Openai.convertUsageMetadata u, Openai.convertFinishReason fr,
            false, true⟩)
    ∧ (∀ (id name s sr : String) (u : Anthropic.AnthUsage),
        jsonParseObject s = none →
        Anthropic.convertResponse
            ⟨[Anthropic.RespBlock.toolUseBlock id name (Anthropic.GoAny.goRaw s)],
              u, sr⟩ =
          Except.ok ⟨⟨"model", [Part.functionCall id name []]⟩,
            Anthropic.convertRespUsage u, Anthropic.convertStopReason sr,
            false, true⟩) := by
  have hargs : ∀ s, jsonParseObject s = none → Openai.parseJSONArgs s = [] := by
    intro s h
    by_cases hs : s = ""
    · simp [Openai.parseJSONArgs, hs]
    · simp [Openai.parseJSONArgs, hs, h]
  have hinput : ∀ s, jsonParseObject s = none →
      Anthropic.convertToolInput (Anthropic.GoAny.goRaw s) = [] := by
    intro s h
    simp [Anthropic.convertToolInput, h]
  refine ⟨hargs, hinput, ?_, ?_⟩
  · intro id name s fr u h
    simp [Openai.convertResponse, hargs s h]
  · intro id name s sr u h
    simp [Anthropic.convertResponse, Anthropic.convertRespBlocks, hinput s h]

/-- Witness for C8 at the concrete malformed payload "not json". -/
theorem c8_malformed_args_lenient_witness :
    jsonParseObject "not json" = none
    ∧ Openai.parseJSONArgs "not json" = []
    ∧ Anthropic.convertToolInput (Anthropic.GoAny.goRaw "not json") = [] :=
  ⟨rfl, c8_malformed_args_lenient.1 "not json" rfl,
   c8_malformed_args_lenient.2.1 "not json" rfl⟩

/-- Hex digits of values below 16 lie in the tool-ID charset. -/
theorem hexDigitChar_valid (n : Nat) (h : n < 16) :
    Anthropic.isAnthropicIDChar (hexDigitChar n) = true := by
  interval_cases n <;> decide

/-- Every character of a fixed-width hex rendering lies in the tool-ID
charset. -/
theorem hexDigitsLSB_valid :
    ∀ (w v : Nat), ∀ c ∈ hexDigitsLSB w v, Anthropic.isAnthropicIDChar c = true := by
  intro w
  induction w with
  | zero => intro v c hc; simp [hexDigitsLSB] at hc
  | succ w ih =>
    intro v c hc
    simp only [hexDigitsLSB, List.mem_cons] at hc
    rcases hc with hc | hc
    · subst hc
      exact hexDigitChar_valid _ (Nat.mod_lt _ (by norm_num))
    · exact ih _ c hc

/-- Every character of the modelled digest lies in the tool-ID charset. -/
theorem sha256Hex_chars_valid (s : String) :
    ∀ c ∈ (sha256Hex s).data, Anthropic.isAnthropicIDChar c = true := by
  intro c hc
  have hc2 : c ∈ hexDigitsLSB 64 (s.data.foldl (fun h c => (h * 131 + c.toNat) % (2 ^ 256)) 7) := by
    have : (sha256Hex s).data =
        (hexDigitsLSB 64 (s.data.foldl (fun h c => (h * 131 + c.toNat) % (2 ^ 256)) 7)).reverse := rfl
    rw [this] at hc
    exact List.mem_reverse.mp hc
  exact hexDigitsLSB_valid _ _ c hc2

/-- The modelled digest renders exactly 64 characters. -/
theorem sha256Hex_length (s : String) : (sha256Hex s).length = 64 := by
  have hlen : ∀ (w v : Nat), (hexDigitsLSB w v).length = w := by
    intro w
    induction w with
    | zero => intro v; rfl
    | succ w ih => intro v; simp [hexDigitsLSB, ih]
  show (hexDigitsLSB 64 _).reverse.length = 64
  rw [List.length_reverse, hlen]

/-- A sanitized invalid ID matches the charset. -/
theorem sanitizeToolID_output_valid (s : String)
    (h : Anthropic.matchesToolIDPattern s = false) :
    Anthropic.matchesToolIDPattern (Anthropic.sanitizeToolID s) = true := by
  rw [Anthropic.sanitizeToolID, if_neg (by simp [h])]
  have hdata : ("toolu_" ++ strTake (sha256Hex s) 32).data =
      "toolu_".data ++ (sha256Hex s).data.take 32 := by
    rw [String.data_append]; rfl
  have hall : ((sha256Hex s).data.take 32).all Anthropic.isAnthropicIDChar = true := by
    rw [List.all_eq_true]
    intro c hc
    exact sha256Hex_chars_valid s c (List.mem_of_mem_take hc)
  rw [Anthropic.matchesToolIDPattern, hdata, List.all_append, hall]
  rfl

/-- C4: the charset-limited (Anthropic-style) sanitizer returns every ID
matching `[a-zA-Z0-9_-]+` unchanged, maps every other ID to an output that
itself matches the charset, and is idempotent on its own output.  Determinism
(same input, same output across calls) is inherent: the sanitizer is a pure
function of the ID. -/
theorem c4_charset_sanitizer (s : String) :
    (Anthropic.matchesToolIDPattern s = true → Anthropic.sanitizeToolID s = s)
    ∧ (Anthropic.matchesToolIDPattern s = false →
        Anthropic.matchesToolIDPattern (Anthropic.sanitizeToolID s) = true)
    ∧ Anthropic.sanitizeToolID (Anthropic.sanitizeToolID s) =
        Anthropic.sanitizeToolID s := by
  refine ⟨?_, sanitizeToolID_output_valid s, ?_⟩
  · intro h
    rw [Anthropic.sanitizeToolID, if_pos h]
  · by_cases h : Anthropic.matchesToolIDPattern s = true
    · have hs : Anthropic.sanitizeToolID s = s := by
        rw [Anthropic.sanitizeToolID, if_pos h]
      rw [hs]
      exact hs
    · have h2 := sanitizeToolID_output_valid s (by simpa using h)
      rw [Anthropic.sanitizeToolID, if_pos h2]

/-- Witness for C4 at a valid and an invalid concrete ID. -/
theorem c4_charset_sanitizer_witness :
    Anthropic.sanitizeToolID "call_abc-123" = "call_abc-123"
    ∧ Anthropic.matchesToolIDPattern
        (Anthropic.sanitizeToolID "bad id!") = true :=
  ⟨(c4_charset_sanitizer "call_abc-123").1 (by decide),
   (c4_charset_sanitizer "bad id!").2.1 (by decide)⟩

/-- C3: the length-limited (OpenAI-style) policy passes IDs of at most 40
characters through unchanged (and reverse lookup echoes any ID the instance
table does not hold, in particular any ID on a fresh instance); an ID longer
than 40 characters is replaced by an ID of at most 40 characters starting
with the fixed tag "tc_", and reverse lookup on the updated instance state
returns the original. -/
theorem c3_length_limited_ids (tbl : Openai.Table) (s : String) :
    (s.length ≤ 40 → Openai.normalizeToolCallID tbl s = (tbl, s))
    ∧ (findOrig tbl s = none → Openai.denormalizeToolCallID tbl s = s)
    ∧ (40 < s.length →
        (Openai.normalizeToolCallID tbl s).2.length ≤ 40
        ∧ (Openai.normalizeToolCallID tbl s).2.data.take 3 = "tc_".data
        ∧ Openai.denormalizeToolCallID (Openai.normalizeToolCallID tbl s).1
            (Openai.normalizeToolCallID tbl s).2 = s) := by
  refine ⟨?_, ?_, ?_⟩
  · intro h
    rw [Openai.normalizeToolCallID,
      if_pos (show s.length ≤ Openai.maxToolCallIDLength by
        simp only [Openai.maxToolCallIDLength]; omega)]
  · intro h
    rw [Openai.denormalizeToolCallID, h]
  · intro h
    have hnorm : Openai.normalizeToolCallID tbl s =
        (("tc_" ++ strTake (sha256Hex s) 37, s) :: tbl,
          "tc_" ++ strTake (sha256Hex s) 37) := by
      rw [Openai.normalizeToolCallID,
        if_neg (show ¬s.length ≤ Openai.maxToolCallIDLength by
          simp only [Openai.maxToolCallIDLength]; omega)]
      rfl
    have htakelen : (strTake (sha256Hex s) 37).length = 37 := by
      show ((sha256Hex s).data.take 37).length = 37
      rw [List.length_take]
      have : (sha256Hex s).data.length = 64 := sha256Hex_length s
      omega
    refine ⟨?_, ?_, ?_⟩
    · rw [hnorm]
      simp only [String.length_append, htakelen]
      decide
    · rw [hnorm]
      show ("tc_" ++ strTake (sha256Hex s) 37).data.take 3 = "tc_".data
      rw [String.data_append]
      have h3 : ("tc_".data).length = 3 := rfl
      rw [← h3, List.take_left]
    · rw [hnorm, Openai.denormalizeToolCallID]
      simp [findOrig]

/-- Witness for C3: a short ID passes through and reverse lookup echoes it on
a fresh instance; a 41-character ID is shortened to at most 40 characters
with the "tc_" tag and reverse-maps to itself. -/
theorem c3_length_limited_ids_witness :
    Openai.normalizeToolCallID [] "call_x" = ([], "call_x")
    ∧ Openai.denormalizeToolCallID [] "call_x" = "call_x"
    ∧ ((Openai.normalizeToolCallID []
          "aaaaaaaaaaaaaaaaaaaaaaaaaaaaaaaaaaaaaaaaa").2.length ≤ 40
      ∧ (Openai.normalizeToolCallID []
          "aaaaaaaaaaaaaaaaaaaaaaaaaaaaaaaaaaaaaaaaa").2.data.take 3 = "tc_".data
      ∧ Openai.denormalizeToolCallID
          (Openai.normalizeToolCallID []
            "aaaaaaaaaaaaaaaaaaaaaaaaaaaaaaaaaaaaaaaaa").1
          (Openai.normalizeToolCallID []
            "aaaaaaaaaaaaaaaaaaaaaaaaaaaaaaaaaaaaaaaaa").2 =
          "aaaaaaaaaaaaaaaaaaaaaaaaaaaaaaaaaaaaaaaaa") :=
  ⟨(c3_length_limited_ids [] "call_x").1 (by decide),
   (c3_length_limited_ids [] "call_x").2.1 rfl,
   (c3_length_limited_ids [] "aaaaaaaaaaaaaaaaaaaaaaaaaaaaaaaaaaaaaaaaa").2.2
     (by decide)⟩

/-- The one-step unfolding of repairMessageHistory on a nonempty list. -/
theorem repair_cons_eq (m : Anthropic.MessageParam)
    (rest : List Anthropic.MessageParam) :
    Anthropic.repairMessageHistory (m :: rest) =
      if m.role = Anthropic.Role.assistant ∧ Anthropic.extractToolUseIDs m ≠ [] then
        (let allowed : Option (List String) :=
          match rest with
          | next :: _ =>
            if next.role = Anthropic.Role.user
            then some (Anthropic.extractToolResultIDs next) else none
          | [] => none
         let filteredMsg := Anthropic.filterToolUse m allowed
         (if Anthropic.hasContent filteredMsg then [filteredMsg] else [])
           ++ Anthropic.repairMessageHistory rest)
      else m :: Anthropic.repairMessageHistory rest := rfl

/-- filterToolUse with an allowed set is the order-preserving filter keeping
non-tool_use blocks and the tool_use blocks with an allowed ID. -/
theorem filterBlocks_some_eq_filter (blocks : List Anthropic.ContentBlock)
    (ids : List String) :
    Anthropic.filterBlocks blocks (some ids) =
      blocks.filter fun b =>
        match b with
        | Anthropic.ContentBlock.toolUse id _ _ => memStr id ids
        | _ => true := by
  induction blocks with
  | nil => rfl
  | cons b rest ih =>
    cases b with
    | toolUse id nm inp =>
      show (if memStr id ids = true
          then Anthropic.ContentBlock.toolUse id nm inp :: Anthropic.filterBlocks rest (some ids)
          else Anthropic.filterBlocks rest (some ids)) = _
      rw [List.filter_cons]
      split <;> simp_all
    | text s =>
      show Anthropic.ContentBlock.text s :: Anthropic.filterBlocks rest (some ids) = _
      rw [List.filter_cons]
      simpa using ih
    | image mt d =>
      show Anthropic.ContentBlock.image mt d :: Anthropic.filterBlocks rest (some ids) = _
      rw [List.filter_cons]
      simpa using ih
    | toolResult tid c =>
      show Anthropic.ContentBlock.toolResult tid c :: Anthropic.filterBlocks rest (some ids) = _
      rw [List.filter_cons]
      simpa using ih

/-- filterToolUse with Go's nil set is the filter dropping every tool_use
block. -/
theorem filterBlocks_none_eq_filter (blocks : List Anthropic.ContentBlock) :
    Anthropic.filterBlocks blocks none =
      blocks.filter fun b =>
        match b with
        | Anthropic.ContentBlock.toolUse _ _ _ => false
        | _ => true := by
  induction blocks with
  | nil => rfl
  | cons b rest ih =>
    cases b with
    | toolUse id nm inp =>
      show Anthropic.filterBlocks rest none = _
      rw [List.filter_cons]
      simpa using ih
    | text s =>
      show Anthropic.ContentBlock.text s :: Anthropic.filterBlocks rest none = _
      rw [List.filter_cons]
      simpa using ih
    | image mt d =>
      show Anthropic.ContentBlock.image mt d :: Anthropic.filterBlocks rest none = _
      rw [List.filter_cons]
      simpa using ih
    | toolResult tid c =>
      show Anthropic.ContentBlock.toolResult tid c :: Anthropic.filterBlocks rest none = _
      rw [List.filter_cons]
      simpa using ih

/-- Every tool_use ID surviving an allowed-set filter is in the allowed set. -/
theorem toolUseIDs_filterBlocks_some (blocks : List Anthropic.ContentBlock)
    (ids : List String) :
    ∀ id ∈ Anthropic.extractBlockToolUseIDs
        (Anthropic.filterBlocks blocks (some ids)),
      memStr id ids = true := by
  induction blocks with
  | nil => intro id h; cases h
  | cons b rest ih =>
    intro id h
    cases b with
    | toolUse bid nm inp =>
      by_cases hm : memStr bid ids = true
      · have h2 : id ∈ Anthropic.extractBlockToolUseIDs
            (Anthropic.ContentBlock.toolUse bid nm inp ::
              Anthropic.filterBlocks rest (some ids)) := by
          have e : Anthropic.filterBlocks
              (Anthropic.ContentBlock.toolUse bid nm inp :: rest) (some ids) =
              Anthropic.ContentBlock.toolUse bid nm inp ::
                Anthropic.filterBlocks rest (some ids) := by
            show (if memStr bid ids = true then _ else _) = _
            rw [if_pos hm]
          rw [e] at h
          exact h
        rcases List.mem_cons.mp h2 with h3 | h3
        · subst h3; exact hm
        · exact ih id h3
      · have e : Anthropic.filterBlocks
            (Anthropic.ContentBlock.toolUse bid nm inp :: rest) (some ids) =
            Anthropic.filterBlocks rest (some ids) := by
          show (if memStr bid ids = true then _ else _) = _
          rw [if_neg hm]
        rw [e] at h
        exact ih id h
    | text s => exact ih id h
    | image mt d => exact ih id h
    | toolResult tid c => exact ih id h

/-- A nil-set filter leaves no tool_use ID. -/
theorem toolUseIDs_filterBlocks_none (blocks : List Anthropic.ContentBlock) :
    Anthropic.extractBlockToolUseIDs (Anthropic.filterBlocks blocks none) = [] := by
  induction blocks with
  | nil => rfl
  | cons b rest ih => cases b <;> exact ih

/-- Repair leaves a message alone unless it is an assistant message bearing
tool_use blocks. -/
theorem repair_cons_passthrough (m : Anthropic.MessageParam)
    (rest : List Anthropic.MessageParam)
    (h : ¬(m.role = Anthropic.Role.assistant ∧ Anthropic.extractToolUseIDs m ≠ [])) :
    Anthropic.repairMessageHistory (m :: rest) =
      m :: Anthropic.repairMessageHistory rest := by
  rw [repair_cons_eq, if_neg h]

/-- A user message is never an assistant message, so repair passes it
through. -/
theorem repair_cons_user (u : Anthropic.MessageParam)
    (rest : List Anthropic.MessageParam) (hu : u.role = Anthropic.Role.user) :
    Anthropic.repairMessageHistory (u :: rest) =
      u :: Anthropic.repairMessageHistory rest := by
  apply repair_cons_passthrough
  rintro ⟨hra, -⟩
  rw [hu] at hra
  cases hra

/-- The repaired list satisfies the assistant-side pairing invariant: every
tool_use ID of an assistant message is answered by a tool_result in the next
message. -/
theorem repair_assistantPaired (msgs : List Anthropic.MessageParam) :
    Anthropic.assistantToolUsePaired (Anthropic.repairMessageHistory msgs) = true := by
  induction msgs with
  | nil => rfl
  | cons m rest ih =>
    by_cases hcond : m.role = Anthropic.Role.assistant ∧ Anthropic.extractToolUseIDs m ≠ []
    · rcases rest with _ | ⟨next, rest2⟩
      · -- no following message: every tool_use dropped
        rw [repair_cons_eq, if_pos hcond]
        show Anthropic.assistantToolUsePaired
          ((if Anthropic.hasContent (Anthropic.filterToolUse m none)
            then [Anthropic.filterToolUse m none] else [])
            ++ Anthropic.repairMessageHistory []) = true
        by_cases hc : Anthropic.hasContent (Anthropic.filterToolUse m none) = true
        · rw [if_pos hc]
          show Anthropic.assistantToolUsePaired [Anthropic.filterToolUse m none] = true
          rw [Anthropic.assistantToolUsePaired, Bool.and_eq_true]
          refine ⟨?_, rfl⟩
          have hids : Anthropic.extractToolUseIDs (Anthropic.filterToolUse m none) = [] :=
            toolUseIDs_filterBlocks_none m.content
          rw [Anthropic.extractToolUseIDs] at hids
          split
          · rw [show Anthropic.extractToolUseIDs (Anthropic.filterToolUse m none) = [] from hids]
            rfl
          · rfl
        · rw [if_neg hc, List.nil_append]
          exact ih
      · by_cases hnext : next.role = Anthropic.Role.user
        · -- following user message: matched tool_use kept
          rw [repair_cons_eq, if_pos hcond]
          show Anthropic.assistantToolUsePaired
            ((if Anthropic.hasContent (Anthropic.filterToolUse m
                (if next.role = Anthropic.Role.user
                 then some (Anthropic.extractToolResultIDs next) else none))
              then [Anthropic.filterToolUse m
                (if next.role = Anthropic.Role.user
                 then some (Anthropic.extractToolResultIDs next) else none)] else [])
              ++ Anthropic.repairMessageHistory (next :: rest2)) = true
          rw [if_pos hnext]
          rw [repair_cons_user next rest2 hnext]
          by_cases hc : Anthropic.hasContent
              (Anthropic.filterToolUse m (some (Anthropic.extractToolResultIDs next))) = true
          · rw [if_pos hc, List.singleton_append]
            rw [Anthropic.assistantToolUsePaired, Bool.and_eq_true]
            constructor
            · have hall : ∀ id ∈ Anthropic.extractToolUseIDs
                  (Anthropic.filterToolUse m (some (Anthropic.extractToolResultIDs next))),
                  memStr id (Anthropic.extractToolResultIDs next) = true :=
                toolUseIDs_filterBlocks_some m.content _
              split
              · rw [List.all_eq_true]
                intro id hid
                exact hall id hid
              · rfl
            · rw [← repair_cons_user next rest2 hnext]
              exact ih
          · rw [if_neg hc, List.nil_append, ← repair_cons_user next rest2 hnext]
            exact ih
        · -- following message is not a user message: every tool_use dropped
          rw [repair_cons_eq, if_pos hcond]
          show Anthropic.assistantToolUsePaired
            ((if Anthropic.hasContent (Anthropic.filterToolUse m
                (if next.role = Anthropic.Role.user
                 then some (Anthropic.extractToolResultIDs next) else none))
              then [Anthropic.filterToolUse m
                (if next.role = Anthropic.Role.user
                 then some (Anthropic.extractToolResultIDs next) else none)] else [])
              ++ Anthropic.repairMessageHistory (next :: rest2)) = true
          rw [if_neg hnext]
          by_cases hc : Anthropic.hasContent (Anthropic.filterToolUse m none) = true
          · rw [if_pos hc, List.singleton_append]
            rw [Anthropic.assistantToolUsePaired, Bool.and_eq_true]
            refine ⟨?_, ih⟩
            have hids : Anthropic.extractToolUseIDs (Anthropic.filterToolUse m none) = [] :=
              toolUseIDs_filterBlocks_none m.content
            split
            · rw [show Anthropic.extractToolUseIDs (Anthropic.filterToolUse m none) = [] from hids]
              rfl
            · rfl
          · rw [if_neg hc, List.nil_append]
            exact ih
    · rw [repair_cons_passthrough m rest hcond]
      rw [Anthropic.assistantToolUsePaired, Bool.and_eq_true]
      refine ⟨?_, ih⟩
      by_cases hrole : m.role = Anthropic.Role.assistant
      · have hids : Anthropic.extractToolUseIDs m = [] := by
          by_contra hne
          exact hcond ⟨hrole, hne⟩
        rw [if_pos hrole, hids]
        rfl
      · rw [if_neg hrole]

/-- C2, counterexample: the claim's closing invariant — "in the resulting
list every remaining tool_use has a paired tool_result in the next message" —
fails, because the repair pass inspects only assistant messages: a user
message carrying a tool_use block passes through unchanged and stays
unpaired. -/
theorem c2_claim_counterexample :
    Anthropic.repairMessageHistory
        [⟨Anthropic.Role.user, [Anthropic.ContentBlock.toolUse "x" "f" (JVal.jobj [])]⟩] =
      [⟨Anthropic.Role.user, [Anthropic.ContentBlock.toolUse "x" "f" (JVal.jobj [])]⟩]
    ∧ Anthropic.toolUsePaired
        (Anthropic.repairMessageHistory
          [⟨Anthropic.Role.user, [Anthropic.ContentBlock.toolUse "x" "f" (JVal.jobj [])]⟩]) =
      false :=
  ⟨rfl, rfl⟩

/-- C2, amended: history repair makes one left-to-right pass in which an
assistant message carrying tool_use blocks followed by a user message keeps
exactly the tool_use blocks whose IDs appear among that user message's
tool_result IDs (the user message itself unchanged), one with no immediately
following user message loses all its tool_use blocks, a message left with no
content is dropped entirely, and every message not satisfying "assistant
bearing tool_use" passes through unchanged; in the resulting list every
remaining tool_use *of an assistant message* has a paired tool_result in the
next message (a tool_use carried by a non-assistant message is passed through
unexamined and may stay unpaired). -/
theorem c2_history_repair :
    (∀ (m u : Anthropic.MessageParam) (rest : List Anthropic.MessageParam),
      m.role = Anthropic.Role.assistant → Anthropic.extractToolUseIDs m ≠ [] →
      u.role = Anthropic.Role.user →
      Anthropic.repairMessageHistory (m :: u :: rest) =
        (let kept := m.content.filter fun b =>
          match b with
          | Anthropic.ContentBlock.toolUse id _ _ =>
            memStr id (Anthropic.extractToolResultIDs u)
          | _ => true
         if kept.isEmpty then [] else [{ role := m.role, content := kept }])
        ++ u :: Anthropic.repairMessageHistory rest)
    ∧ (∀ (m : Anthropic.MessageParam) (rest : List Anthropic.MessageParam),
      m.role = Anthropic.Role.assistant → Anthropic.extractToolUseIDs m ≠ [] →
      (match rest.head? with
       | some next => next.role ≠ Anthropic.Role.user
       | none => True) →
      Anthropic.repairMessageHistory (m :: rest) =
        (let kept := m.content.filter fun b =>
          match b with
          | Anthropic.ContentBlock.toolUse _ _ _ => false
          | _ => true
         if kept.isEmpty then [] else [{ role := m.role, content := kept }])
        ++ Anthropic.repairMessageHistory rest)
    ∧ (∀ (m : Anthropic.MessageParam) (rest : List Anthropic.MessageParam),
      ¬(m.role = Anthropic.Role.assistant ∧ Anthropic.extractToolUseIDs m ≠ []) →
      Anthropic.repairMessageHistory (m :: rest) =
        m :: Anthropic.repairMessageHistory rest)
    ∧ (∀ msgs : List Anthropic.MessageParam,
      Anthropic.assistantToolUsePaired (Anthropic.repairMessageHistory msgs) = true) := by
  refine ⟨?_, ?_, repair_cons_passthrough, repair_assistantPaired⟩
  · intro m u rest hrole hids hu
    rw [repair_cons_eq, if_pos ⟨hrole, hids⟩]
    show (if Anthropic.hasContent (Anthropic.filterToolUse m
          (if u.role = Anthropic.Role.user
           then some (Anthropic.extractToolResultIDs u) else none))
        then [Anthropic.filterToolUse m
          (if u.role = Anthropic.Role.user
           then some (Anthropic.extractToolResultIDs u) else none)] else [])
        ++ Anthropic.repairMessageHistory (u :: rest) = _
    rw [if_pos hu, repair_cons_user u rest hu]
    rw [Anthropic.filterToolUse, filterBlocks_some_eq_filter]
    set kept := m.content.filter fun b =>
      match b with
      | Anthropic.ContentBlock.toolUse id _ _ =>
        memStr id (Anthropic.extractToolResultIDs u)
      | _ => true with hkept
    by_cases hk : kept.isEmpty = true
    · simp [Anthropic.hasContent, hk]
    · simp only [Bool.not_eq_true] at hk
      simp [Anthropic.hasContent, hk]
  · intro m rest hrole hids hno
    rw [repair_cons_eq, if_pos ⟨hrole, hids⟩]
    have hshape : Anthropic.repairMessageHistory (m :: rest) =
        Anthropic.repairMessageHistory (m :: rest) := rfl
    rcases rest with _ | ⟨next, rest2⟩
    · show (if Anthropic.hasContent (Anthropic.filterToolUse m none)
          then [Anthropic.filterToolUse m none] else [])
          ++ Anthropic.repairMessageHistory [] = _
      rw [Anthropic.filterToolUse, filterBlocks_none_eq_filter]
      set kept := m.content.filter fun b =>
        match b with
        | Anthropic.ContentBlock.toolUse _ _ _ => false
        | _ => true with hkept
      by_cases hk : kept.isEmpty = true
      · simp [Anthropic.hasContent, hk]
      · simp only [Bool.not_eq_true] at hk
        simp [Anthropic.hasContent, hk]
    · have hnext : next.role ≠ Anthropic.Role.user := by
        simpa using hno
      show (if Anthropic.hasContent (Anthropic.filterToolUse m
            (if next.role = Anthropic.Role.user
             then some (Anthropic.extractToolResultIDs next) else none))
          then [Anthropic.filterToolUse m
            (if next.role = Anthropic.Role.user
             then some (Anthropic.extractToolResultIDs next) else none)] else [])
          ++ Anthropic.repairMessageHistory (next :: rest2) = _
      rw [if_neg hnext]
      rw [Anthropic.filterToolUse, filterBlocks_none_eq_filter]
      set kept := m.content.filter fun b =>
        match b with
        | Anthropic.ContentBlock.toolUse _ _ _ => false
        | _ => true with hkept
      by_cases hk : kept.isEmpty = true
      · simp [Anthropic.hasContent, hk]
      · simp only [Bool.not_eq_true] at hk
        simp [Anthropic.hasContent, hk]

/-- Witness for C2 at the spec's own example: an assistant message with
tool_use IDs a and b followed by a user message with tool_result ID a. -/
theorem c2_history_repair_witness :
    Anthropic.repairMessageHistory
        [⟨Anthropic.Role.assistant,
            [Anthropic.ContentBlock.toolUse "a" "f" (JVal.jobj []),
             Anthropic.ContentBlock.toolUse "b" "g" (JVal.jobj [])]⟩,
         ⟨Anthropic.Role.user,
            [Anthropic.ContentBlock.toolResult "a" (JVal.jobj [])]⟩] =
      (let kept :=
        [Anthropic.ContentBlock.toolUse "a" "f" (JVal.jobj []),
         Anthropic.ContentBlock.toolUse "b" "g" (JVal.jobj [])].filter fun b =>
          match b with
          | Anthropic.ContentBlock.toolUse id _ _ =>
            memStr id (Anthropic.extractToolResultIDs
              ⟨Anthropic.Role.user,
                [Anthropic.ContentBlock.toolResult "a" (JVal.jobj [])]⟩)
          | _ => true
       if kept.isEmpty then []
       else [{ role := Anthropic.Role.assistant, content := kept }])
      ++ ⟨Anthropic.Role.user,
            [Anthropic.ContentBlock.toolResult "a" (JVal.jobj [])]⟩
        :: Anthropic.repairMessageHistory [] :=
  c2_history_repair.1
    ⟨Anthropic.Role.assistant,
      [Anthropic.ContentBlock.toolUse "a" "f" (JVal.jobj []),
       Anthropic.ContentBlock.toolUse "b" "g" (JVal.jobj [])]⟩
    ⟨Anthropic.Role.user, [Anthropic.ContentBlock.toolResult "a" (JVal.jobj [])]⟩
    [] rfl (by decide) rfl

/-- One string of empties concatenates to the empty string. -/
theorem concatStrings_all_empty (l : List String) (h : ∀ s ∈ l, s = "") :
    concatStrings l = "" := by
  induction l with
  | nil => rfl
  | cons s rest ih =>
    rw [concatStrings, h s (List.mem_cons_self s rest),
      ih fun t ht => h t (List.mem_cons_of_mem s ht), String.empty_append]

/-- One-step unfolding of the OpenAI streaming loop on a received chunk. -/
theorem openai_stream_cons_eq (acc : Openai.StreamAcc) (c : Openai.ChatChunk)
    (rest : List Openai.ChatChunk) (terr : Option String) :
    Openai.generateStream acc (c :: rest) terr =
      if Openai.chunkDelta c ≠ "" then
        Openai.StreamItem.resp
          { content := { role := "model", parts := [Part.text (Openai.chunkDelta c)] }
            usage := none
            finishReason := FinishReason.unspecified
            isPartial := true
            turnComplete := false }
          :: Openai.generateStream (Openai.addChunk acc c) rest terr
      else Openai.generateStream (Openai.addChunk acc c) rest terr := rfl

/-- The OpenAI streaming loop in closed form: one partial response per
nonempty first-choice delta, in arrival order, then one terminal element —
the transport error if one occurred, the aggregated final response
otherwise. -/
theorem openai_stream_closed (chunks : List Openai.ChatChunk) :
    ∀ (acc : Openai.StreamAcc) (terr : Option String),
    Openai.generateStream acc chunks terr =
      (chunks.filterMap fun c =>
        if Openai.chunkDelta c ≠ "" then
          some (Openai.StreamItem.resp
            { content := { role := "model", parts := [Part.text (Openai.chunkDelta c)] }
              usage := none
              finishReason := FinishReason.unspecified
              isPartial := true
              turnComplete := false })
        else none)
      ++ [match terr with
          | some e => Openai.StreamItem.failed e
          | none => Openai.StreamItem.resp
              (Openai.buildStreamFinalResponse (chunks.foldl Openai.addChunk acc))] := by
  induction chunks with
  | nil => intro acc terr; cases terr <;> rfl
  | cons c rest ih =>
    intro acc terr
    rw [openai_stream_cons_eq]
    by_cases h : Openai.chunkDelta c ≠ ""
    · rw [if_pos h, ih]
      simp [h]
    · rw [if_neg h, ih]
      simp only [Bool.not_eq_true, not_not] at h
      simp [h]

/-- The accumulated stream content is the concatenation of the deltas. -/
theorem openai_foldl_content (chunks : List Openai.ChatChunk) :
    ∀ acc : Openai.StreamAcc,
    (chunks.foldl Openai.addChunk acc).content =
      acc.content ++ concatStrings (chunks.map Openai.chunkDelta) := by
  induction chunks with
  | nil => intro acc; rw [List.foldl_nil, List.map_nil, concatStrings, String.append_empty]
  | cons c rest ih =>
    intro acc
    rw [List.foldl_cons, List.map_cons, concatStrings, ih,
      show (Openai.addChunk acc c).content = acc.content ++ Openai.chunkDelta c from rfl,
      String.append_assoc]

/-- The accumulator has seen a choice exactly when some chunk carried one. -/
theorem openai_foldl_hasChoice (chunks : List Openai.ChatChunk) :
    ∀ acc : Openai.StreamAcc,
    (chunks.foldl Openai.addChunk acc).hasChoice =
      (acc.hasChoice || chunks.any fun c => !c.choices.isEmpty) := by
  induction chunks with
  | nil => intro acc; rw [List.foldl_nil, List.any_nil, Bool.or_false]
  | cons c rest ih =>
    intro acc
    rw [List.foldl_cons, List.any_cons, ih,
      show (Openai.addChunk acc c).hasChoice = (acc.hasChoice || !c.choices.isEmpty) from rfl,
      Bool.or_assoc]

/-- The Text content of the final aggregated OpenAI response reads the
concatenation of all deltas. -/
theorem openai_final_text (chunks : List Openai.ChatChunk) :
    textOfParts (Openai.buildStreamFinalResponse
        (chunks.foldl Openai.addChunk Openai.emptyAcc)).content.parts =
      concatStrings (chunks.map Openai.chunkDelta) := by
  set acc := chunks.foldl Openai.addChunk Openai.emptyAcc with hacc
  have hcontent : acc.content = concatStrings (chunks.map Openai.chunkDelta) := by
    rw [hacc, openai_foldl_content,
      show Openai.emptyAcc.content = "" from rfl, String.empty_append]
  have hparts : (Openai.buildStreamFinalResponse acc).content.parts =
      if acc.hasChoice ∧ acc.content ≠ "" then [Part.text acc.content] else [] := rfl
  by_cases h : acc.hasChoice ∧ acc.content ≠ ""
  · rw [hparts, if_pos h]
    show acc.content ++ "" = _
    rw [String.append_empty, hcontent]
  · rw [hparts, if_neg h]
    show "" = _
    rcases not_and_or.mp h with h1 | h2
    · have hfalse : acc.hasChoice = false := by
        simpa using h1
      rw [hacc, openai_foldl_hasChoice,
        show Openai.emptyAcc.hasChoice = false from rfl, Bool.false_or] at hfalse
      symm
      apply concatStrings_all_empty
      intro s hs
      rcases List.mem_map.mp hs with ⟨c, hc, rfl⟩
      have hempty : c.choices.isEmpty = true := by
        have := List.any_eq_true.not.mp (by rw [hfalse]; simp)
        push_neg at this
        have h3 := this c hc
        simpa using h3
      rcases c with ⟨choices, usage⟩
      cases choices with
      | nil => rfl
      | cons ch tail => cases hempty
    · have hc0 : acc.content = "" := by simpa using h2
      rw [← hcontent, hc0]

/-- One-step unfolding of the Anthropic streaming loop on a text delta. -/
theorem anthropic_stream_cons_textDelta (acc : Anthropic.MsgAcc) (s : String)
    (rest : List Anthropic.StreamEvent) (terr : Option String) :
    Anthropic.generateStream acc (Anthropic.StreamEvent.textDelta s :: rest) terr =
      if s ≠ "" then
        Anthropic.StreamItem.resp
          { content := { role := "model", parts := [Part.text s] }
            usage := none
            finishReason := FinishReason.unspecified
            isPartial := true
            turnComplete := false }
          :: Anthropic.generateStream
              (Anthropic.accumulate acc (Anthropic.StreamEvent.textDelta s)) rest terr
      else Anthropic.generateStream
            (Anthropic.accumulate acc (Anthropic.StreamEvent.textDelta s)) rest terr := rfl

/-- One-step unfolding of the Anthropic streaming loop on a message delta. -/
theorem anthropic_stream_cons_messageDelta (acc : Anthropic.MsgAcc)
    (sr : String) (ot : Nat) (rest : List Anthropic.StreamEvent)
    (terr : Option String) :
    Anthropic.generateStream acc
        (Anthropic.StreamEvent.messageDelta sr ot :: rest) terr =
      Anthropic.generateStream
        (Anthropic.accumulate acc (Anthropic.StreamEvent.messageDelta sr ot))
        rest terr := rfl

/-- One-step unfolding of the Anthropic streaming loop on a message start. -/
theorem anthropic_stream_cons_messageStart (acc : Anthropic.MsgAcc) (it : Nat)
    (rest : List Anthropic.StreamEvent) (terr : Option String) :
    Anthropic.generateStream acc
        (Anthropic.StreamEvent.messageStart it :: rest) terr =
      Anthropic.generateStream
        (Anthropic.accumulate acc (Anthropic.StreamEvent.messageStart it))
        rest terr := rfl

/-- One-step unfolding of the Anthropic streaming loop on any other event. -/
theorem anthropic_stream_cons_otherEvent (acc : Anthropic.MsgAcc)
    (rest : List Anthropic.StreamEvent) (terr : Option String) :
    Anthropic.generateStream acc (Anthropic.StreamEvent.otherEvent :: rest) terr =
      Anthropic.generateStream
        (Anthropic.accumulate acc Anthropic.StreamEvent.otherEvent) rest terr := rfl

/-- The Anthropic streaming loop in closed form: one partial response per
nonempty text delta, in arrival order, then one terminal element — the
transport error if one occurred, the aggregated final response otherwise. -/
theorem anthropic_stream_closed (events : List Anthropic.StreamEvent) :
    ∀ (acc : Anthropic.MsgAcc) (terr : Option String),
    Anthropic.generateStream acc events terr =
      (events.filterMap fun ev =>
        match ev with
        | Anthropic.StreamEvent.textDelta s =>
          if s ≠ "" then
            some (Anthropic.StreamItem.resp
              { content := { role := "model", parts := [Part.text s] }
                usage := none
                finishReason := FinishReason.unspecified
                isPartial := true
                turnComplete := false })
          else none
        | _ => none)
      ++ [match terr with
          | some e => Anthropic.StreamItem.failed e
          | none =>
            Anthropic.StreamItem.resp
              { content :=
                  { role := "model"
                    parts := Anthropic.convertRespBlocks
                      (Anthropic.accToMessage
                        (events.foldl Anthropic.accumulate acc)).content }
                usage := Anthropic.convertRespUsage
                  (Anthropic.accToMessage (events.foldl Anthropic.accumulate acc)).usage
                finishReason := Anthropic.convertStopReason
                  (Anthropic.accToMessage (events.foldl Anthropic.accumulate acc)).stopReason
                isPartial := false
                turnComplete := true }] := by
  induction events with
  | nil => intro acc terr; cases terr <;> rfl
  | cons ev rest ih =>
    intro acc terr
    cases ev with
    | textDelta s =>
      rw [anthropic_stream_cons_textDelta]
      by_cases h : s ≠ ""
      · rw [if_pos h, ih]
        simp [h]
      · rw [if_neg h, ih]
        simp only [Bool.not_eq_true, not_not] at h
        simp [h]
    | messageDelta sr ot => rw [anthropic_stream_cons_messageDelta, ih]; simp
    | messageStart it => rw [anthropic_stream_cons_messageStart, ih]; simp
    | otherEvent => rw [anthropic_stream_cons_otherEvent, ih]; simp

/-- The accumulated stream text is the concatenation of the deltas. -/
theorem anthropic_foldl_text (events : List Anthropic.StreamEvent) :
    ∀ acc : Anthropic.MsgAcc,
    ((events.foldl Anthropic.accumulate acc).textSoFar).getD "" =
      acc.textSoFar.getD "" ++ concatStrings (events.map Anthropic.eventDelta) := by
  induction events with
  | nil => intro acc; rw [List.foldl_nil, List.map_nil, concatStrings, String.append_empty]
  | cons ev rest ih =>
    intro acc
    rw [List.foldl_cons, List.map_cons, concatStrings, ih]
    cases ev with
    | textDelta s =>
      show ((acc.textSoFar.getD "") ++ s) ++ _ = _
      rw [String.append_assoc]
      rfl
    | messageDelta sr ot =>
      show acc.textSoFar.getD "" ++ _ = acc.textSoFar.getD "" ++ ("" ++ _)
      rw [String.empty_append]
    | messageStart it =>
      show acc.textSoFar.getD "" ++ _ = acc.textSoFar.getD "" ++ ("" ++ _)
      rw [String.empty_append]
    | otherEvent =>
      show acc.textSoFar.getD "" ++ _ = acc.textSoFar.getD "" ++ ("" ++ _)
      rw [String.empty_append]

/-- If no text block was accumulated then no event carried a delta. -/
theorem anthropic_foldl_textSoFar_none (events : List Anthropic.StreamEvent) :
    ∀ acc : Anthropic.MsgAcc,
    (events.foldl Anthropic.accumulate acc).textSoFar = none →
    acc.textSoFar = none ∧ ∀ ev ∈ events, Anthropic.eventDelta ev = "" := by
  induction events with
  | nil => intro acc h; exact ⟨h, fun ev hev => absurd hev (List.not_mem_nil ev)⟩
  | cons ev rest ih =>
    intro acc h
    rw [List.foldl_cons] at h
    obtain ⟨h2, hall⟩ := ih (Anthropic.accumulate acc ev) h
    cases ev with
    | textDelta s => exact Option.noConfusion h2
    | messageDelta sr ot =>
      refine ⟨h2, fun e he => ?_⟩
      rcases List.mem_cons.mp he with rfl | he2
      · rfl
      · exact hall e he2
    | messageStart it =>
      refine ⟨h2, fun e he => ?_⟩
      rcases List.mem_cons.mp he with rfl | he2
      · rfl
      · exact hall e he2
    | otherEvent =>
      refine ⟨h2, fun e he => ?_⟩
      rcases List.mem_cons.mp he with rfl | he2
      · rfl
      · exact hall e he2

/-- The Text content of the final aggregated Anthropic response reads the
concatenation of all deltas. -/
theorem anthropic_final_text (events : List Anthropic.StreamEvent) :
    textOfParts (Anthropic.finalResponse events).content.parts =
      concatStrings (events.map Anthropic.eventDelta) := by
  set accF := events.foldl Anthropic.accumulate Anthropic.emptyMsgAcc with haccF
  cases htext : accF.textSoFar with
  | none =>
    obtain ⟨-, hall⟩ := anthropic_foldl_textSoFar_none events Anthropic.emptyMsgAcc
      (by rw [← haccF]; exact htext)
    have hparts : (Anthropic.finalResponse events).content.parts = [] := by
      show Anthropic.convertRespBlocks (Anthropic.accToMessage accF).content = []
      rw [show (Anthropic.accToMessage accF).content =
        (match accF.textSoFar with
         | some t => [Anthropic.RespBlock.textBlock t]
         | none => []) from rfl, htext]
      rfl
    rw [hparts]
    show "" = _
    symm
    apply concatStrings_all_empty
    intro s hs
    rcases List.mem_map.mp hs with ⟨ev, hev, rfl⟩
    exact hall ev hev
  | some t =>
    have hcat := anthropic_foldl_text events Anthropic.emptyMsgAcc
    rw [← haccF, htext] at hcat
    have ht : t = concatStrings (events.map Anthropic.eventDelta) := by
      simpa [String.empty_append] using hcat
    have hparts : (Anthropic.finalResponse events).content.parts = [Part.text t] := by
      show Anthropic.convertRespBlocks (Anthropic.accToMessage accF).content = _
      rw [show (Anthropic.accToMessage accF).content =
        (match accF.textSoFar with
         | some t => [Anthropic.RespBlock.textBlock t]
         | none => []) from rfl, htext]
      rfl
    rw [hparts]
    show t ++ "" = _
    rw [String.append_empty, ht]

/-- C1: in an error-free streaming run, on both adapters, each received chunk
with a nonempty text delta yields exactly one partial response
(partial=true, turnComplete=false) holding only that delta as a single Text
part, in arrival order, and the sequence ends with exactly one final response
(partial=false, turnComplete=true) whose Text content is the concatenation of
all deltas. -/
theorem c1_streaming_deltas_and_final :
    (∀ chunks : List Openai.ChatChunk,
      Openai.generateStream Openai.emptyAcc chunks none =
        (chunks.filterMap fun c =>
          if Openai.chunkDelta c ≠ "" then
            some (Openai.StreamItem.resp
              { content := { role := "model", parts := [Part.text (Openai.chunkDelta c)] }
                usage := none
                finishReason := FinishReason.unspecified
                isPartial := true
                turnComplete := false })
          else none)
        ++ [Openai.StreamItem.resp
            (Openai.buildStreamFinalResponse (chunks.foldl Openai.addChunk Openai.emptyAcc))]
      ∧ (Openai.buildStreamFinalResponse
          (chunks.foldl Openai.addChunk Openai.emptyAcc)).isPartial = false
      ∧ (Openai.buildStreamFinalResponse
          (chunks.foldl Openai.addChunk Openai.emptyAcc)).turnComplete = true
      ∧ textOfParts (Openai.buildStreamFinalResponse
          (chunks.foldl Openai.addChunk Openai.emptyAcc)).content.parts =
        concatStrings (chunks.map Openai.chunkDelta))
    ∧ (∀ events : List Anthropic.StreamEvent,
      Anthropic.generateStream Anthropic.emptyMsgAcc events none =
        (events.filterMap fun ev =>
          match ev with
          | Anthropic.StreamEvent.textDelta s =>
            if s ≠ "" then
              some (Anthropic.StreamItem.resp
                { content := { role := "model", parts := [Part.text s] }
                  usage := none
                  finishReason := FinishReason.unspecified
                  isPartial := true
                  turnComplete := false })
            else none
          | _ => none)
        ++ [Anthropic.StreamItem.resp (Anthropic.finalResponse events)]
      ∧ (Anthropic.finalResponse events).isPartial = false
      ∧ (Anthropic.finalResponse events).turnComplete = true
      ∧ textOfParts (Anthropic.finalResponse events).content.parts =
        concatStrings (events.map Anthropic.eventDelta)) := by
  constructor
  · intro chunks
    exact ⟨openai_stream_closed chunks Openai.emptyAcc none, rfl, rfl,
      openai_final_text chunks⟩
  · intro events
    exact ⟨anthropic_stream_closed events Anthropic.emptyMsgAcc none, rfl, rfl,
      anthropic_final_text events⟩

/-- C9: a transport error terminates the streaming sequence with that error
in terminal position on both adapters — the partial responses already emitted
for the chunks received before the error stand unchanged, and no final
aggregated response follows. -/
theorem c9_stream_error_termination :
    (∀ (chunks : List Openai.ChatChunk) (e : String),
      Openai.generateStream Openai.emptyAcc chunks (some e) =
        (chunks.filterMap fun c =>
          if Openai.chunkDelta c ≠ "" then
            some (Openai.StreamItem.resp
              { content := { role := "model", parts := [Part.text (Openai.chunkDelta c)] }
                usage := none
                finishReason := FinishReason.unspecified
                isPartial := true
                turnComplete := false })
          else none)
        ++ [Openai.StreamItem.failed e])
    ∧ (∀ (events : List Anthropic.StreamEvent) (e : String),
      Anthropic.generateStream Anthropic.emptyMsgAcc events (some e) =
        (events.filterMap fun ev =>
          match ev with
          | Anthropic.StreamEvent.textDelta s =>
            if s ≠ "" then
              some (Anthropic.StreamItem.resp
                { content := { role := "model", parts := [Part.text s] }
                  usage := none
                  finishReason := FinishReason.unspecified
                  isPartial := true
                  turnComplete := false })
            else none
          | _ => none)
        ++ [Anthropic.StreamItem.failed e]) :=
  ⟨fun chunks e => openai_stream_closed chunks Openai.emptyAcc (some e),
   fun events e => anthropic_stream_closed events Anthropic.emptyMsgAcc (some e)⟩

end Adk
